import Mathlib

/-!
Verification of the ChronoTrade market-data engine core.

Each C++ component relevant to the checked properties is shallowly embedded
as an executable Lean definition, translated from the source files under
`src/`.  Machine floating-point (`double`) values are modelled as exact
rationals carried as unreduced numerator/denominator pairs; the only IEEE
behaviour the engine code observes is `std::isfinite`, which is modelled as
the exact magnitude staying within the largest finite double
`DBL_MAX = 2^1024 - 2^971`.  Decimal-to-binary rounding is not modelled:
values are exact.  Stateful C++ methods become state-passing functions;
C++ exceptions become `Except` results (an `error` result returns the
object state unchanged, exactly as a throw leaves the C++ object).
-/

set_option maxRecDepth 100000

deriving instance DecidableEq for Except

namespace ChronoTrade

/-! ### Exact model of C++ double values -/

/-- An exact rational model of a `double` value.  Every constructor and
operation in this development keeps `den` positive; well-formedness is the
explicit predicate `FQ.wf`. -/
structure FQ where
  num : ℤ
  den : ℤ
  deriving DecidableEq, Repr

/-- Largest finite IEEE-754 binary64 value, as an integer (a digit literal so
that kernel reduction never unfolds a large power; `dblMax_eq` states the
closed form). -/
def dblMax : ℤ := 179769313486231570814527423731704356798070567525844996598917476803157260780028538760589558632766878171540458953514382464234321326889464182768467546703537516986049910576551282076245490090389328944075868508455133942304583236903222948165808559332123348274797826204144723168738177180919299881250404026184124858368

namespace FQ

/-- Embed an integer as a double value. -/
def ofInt (n : ℤ) : FQ := ⟨n, 1⟩

/-- Well-formedness: the denominator is positive. -/
def wf (x : FQ) : Prop := 0 < x.den

instance : DecidablePred wf := fun x => by unfold wf; infer_instance

/-- The rational value represented. -/
def val (x : FQ) : ℚ := (x.num : ℚ) / (x.den : ℚ)

/-- Model of `std::isfinite` on the exact value. -/
def isfinite (x : FQ) : Bool := decide (|x.num| ≤ dblMax * x.den)

/-- Exact addition (model of double `+` away from overflow). -/
def add (x y : FQ) : FQ := ⟨x.num * y.den + y.num * x.den, x.den * y.den⟩

/-- Model of double `<`. -/
def blt (x y : FQ) : Bool := decide (x.num * y.den < y.num * x.den)

/-- Model of double `<=`. -/
def ble (x y : FQ) : Bool := decide (x.num * y.den ≤ y.num * x.den)

end FQ

/-! ### Order (src/core/Order.hpp) -/

/-- A trade order: the three public data members of `engine::Order`. -/
structure Order where
  price : FQ
  amount : FQ
  timestamp : ℤ
  deriving DecidableEq, Repr

namespace Order

def MIN_PRICE : FQ := ⟨1, 10000⟩
def MAX_PRICE : FQ := ⟨1000000, 1⟩
def MIN_AMOUNT : FQ := ⟨1, 10000⟩
def MAX_AMOUNT : FQ := ⟨100000, 1⟩
def MIN_TIMESTAMP : ℤ := 1000000000
def MAX_TIMESTAMP : ℤ := 2000000000

/-- Model of the validating constructor `Order::Order(p, a, ts)`: the checks
in source order, a throw becoming an `error`. -/
def create (p a : FQ) (ts : ℤ) : Except String Order :=
  if !p.isfinite then .error "Order::price not finite"
  else if !a.isfinite then .error "Order::amount not finite"
  else if FQ.blt p MIN_PRICE || FQ.blt MAX_PRICE p then
    .error "Order::price out of bounds"
  else if FQ.blt a MIN_AMOUNT || FQ.blt MAX_AMOUNT a then
    .error "Order::amount out of bounds"
  else if decide (ts < MIN_TIMESTAMP) || decide (MAX_TIMESTAMP < ts) then
    .error "Order::timestamp out of bounds"
  else .ok ⟨p, a, ts⟩

/-- The Order fields pass the validating constructor. -/
def validB (o : Order) : Bool := (create o.price o.amount o.timestamp).toOption.isSome

end Order

/-! ### Candlestick (src/core/Candlestick.hpp) -/

/-- OHLCV aggregate: the public data members of `engine::Candlestick`.
The C++ field `open` is named `open_price` here (`open` is reserved). -/
structure Candlestick where
  open_price : FQ
  high : FQ
  low : FQ
  close : FQ
  volume : FQ
  start_time : ℤ
  end_time : ℤ
  deriving DecidableEq, Repr

namespace Candlestick

/-- Model of the validating constructor `Candlestick::Candlestick`:
the invariant checks in source order, a throw becoming an `error`. -/
def create (o h l c v : FQ) (s e : ℤ) : Except String Candlestick :=
  if !(FQ.ble l o && FQ.ble o h) then .error "Invariant failed: low <= open <= high"
  else if !(FQ.ble l c && FQ.ble c h) then .error "Invariant failed: low <= close <= high"
  else if decide (e ≤ s) then .error "Invalid time window: start >= end"
  else if FQ.blt v (FQ.ofInt 0) then .error "Negative volume"
  else .ok ⟨o, h, l, c, v, s, e⟩

end Candlestick

/-! ### CandlestickGenerator (src/engine/CandlestickGenerator.hpp) -/

/-- The mutable state of `engine::CandlestickGenerator` (logging, the
dispatch callback and the registry/pool bindings are external collaborators
and are not part of the state the verified properties mention). -/
structure CandlestickGenerator where
  window : List Order
  window_start : ℤ
  window_duration : ℤ
  accepted_orders : ℤ
  late_orders : ℤ
  dropped_orders : ℤ
  deriving DecidableEq, Repr

namespace CandlestickGenerator

/-- `CandlestickGenerator(duration)`: empty window, `window_start = 0`,
counters zero. -/
def init (duration : ℤ) : CandlestickGenerator :=
  ⟨[], 0, duration, 0, 0, 0⟩

/-- Model of `CandlestickGenerator::insert`. -/
def insert (g : CandlestickGenerator) (o : Order) : CandlestickGenerator :=
  let ws := if g.window.isEmpty then o.timestamp else g.window_start
  if o.timestamp < ws + g.window_duration then
    { g with window := g.window ++ [o], window_start := ws,
             accepted_orders := g.accepted_orders + 1 }
  else
    { g with window_start := ws, late_orders := g.late_orders + 1 }

inductive FlushError
  | volumeOverflow
  | invalidCandle
  deriving DecidableEq, Repr

/-- The volume accumulation loop of `flush_if_ready`: each intermediate sum
is checked with `std::isfinite`; a non-finite intermediate throws
`std::overflow_error` (modelled as `FlushError.volumeOverflow`). -/
def sumVolumes (v : FQ) : List Order → Except FlushError FQ
  | [] => .ok v
  | o :: rest =>
    let tmp := FQ.add v o.amount
    if tmp.isfinite then sumVolumes tmp rest
    else .error .volumeOverflow

end CandlestickGenerator

/-- The local `high` accumulator of the flush loop of
`CandlestickGenerator::flush_if_ready` on window `first :: rest`: it starts
at `open = window.front().price` and is raised by every strictly larger
price. -/
def windowHigh (first : Order) (rest : List Order) : FQ :=
  (first :: rest).foldl (fun h o => if FQ.blt h o.price then o.price else h) first.price

/-- The local `low` accumulator of the flush loop. -/
def windowLow (first : Order) (rest : List Order) : FQ :=
  (first :: rest).foldl (fun m o => if FQ.blt o.price m then o.price else m) first.price

/-- The closing price read by `flush_if_ready` (`window.back().price`). -/
def windowClose (first : Order) (rest : List Order) : FQ :=
  ((first :: rest).getLast (List.cons_ne_nil first rest)).price

namespace CandlestickGenerator

/-- Model of `CandlestickGenerator::flush_if_ready(current_time)`.  The C++
loop computes the local accumulators high, low and the checked volume in
one pass over the window; the accumulators are discarded on throw, so the
pass is modelled as the folds `windowHigh`/`windowLow` plus `sumVolumes`.
A throw (the `error` cases) leaves the generator state unchanged: in the
source every state mutation (`dropped_orders +=`, `window.clear()`, the
counter resets) happens after the loop and after the `Candlestick`
constructor. -/
def flush_if_ready (g : CandlestickGenerator) (current_time : ℤ) :
    Except FlushError (Option Candlestick) × CandlestickGenerator :=
  match g.window with
  | [] => (.ok none, g)
  | first :: rest =>
    if g.window_start + g.window_duration ≤ current_time then
      match sumVolumes (FQ.ofInt 0) (first :: rest) with
      | .error e => (.error e, g)
      | .ok vol =>
        match Candlestick.create first.price (windowHigh first rest)
            (windowLow first rest) (windowClose first rest) vol
            g.window_start (g.window_start + g.window_duration) with
        | .error _ => (.error .invalidCandle, g)
        | .ok candle =>
          (.ok (some candle),
           { g with window := [], accepted_orders := 0,
                    late_orders := 0, dropped_orders := 0 })
    else (.ok none, g)

end CandlestickGenerator

/-! ### OrderBook (src/core/OrderBook.hpp) -/

/-- The state of `engine::OrderBook`.  `useArena` is `arena != nullptr`
after construction (arena mode); `arenaBuf` is the prefix
`arena_buffer[0 .. arena_count)` of the slab, so `arena_count` is
`arenaBuf.length`.  `seen` is the `seen_timestamps` set, kept as the list of
timestamps in insertion order. -/
structure OrderBook where
  seen : List ℤ
  useArena : Bool
  arenaBuf : List Order
  maxOrders : ℕ
  arenaFailures : ℕ
  fallback : List Order
  deriving DecidableEq, Repr

namespace OrderBook

/-- Arena-mode construction with `capacity` slots (the slab allocation
succeeded). -/
def mkArena (capacity : ℕ) : OrderBook := ⟨[], true, [], capacity, 0, []⟩

/-- Fallback-mode construction (`arena == nullptr`, or slab allocation
failed). -/
def mkFallback (capacity : ℕ) : OrderBook := ⟨[], false, [], capacity, 0, []⟩

/-- Model of `OrderBook::insert`.  A duplicate timestamp is silently
rejected.  In arena mode a full slab counts an `arena_failures`; otherwise
the stored slot is written by placement-new running the validating `Order`
constructor, whose throw is caught and counted as an `arena_failures`.
In fallback mode, `push_back` copies the order without re-validation. -/
def insert (b : OrderBook) (o : Order) : OrderBook :=
  if b.seen.contains o.timestamp then b
  else if b.useArena then
    if b.maxOrders ≤ b.arenaBuf.length then
      { b with seen := b.seen ++ [o.timestamp], arenaFailures := b.arenaFailures + 1 }
    else if o.validB then
      { b with seen := b.seen ++ [o.timestamp], arenaBuf := b.arenaBuf ++ [o] }
    else
      { b with seen := b.seen ++ [o.timestamp], arenaFailures := b.arenaFailures + 1 }
  else
    { b with seen := b.seen ++ [o.timestamp], fallback := b.fallback ++ [o] }

/-- Model of `OrderBook::size()`. -/
def size (b : OrderBook) : ℕ :=
  if b.useArena then b.arenaBuf.length else b.fallback.length

/-- Model of `OrderBook::is_arena_full()`. -/
def is_arena_full (b : OrderBook) : Bool :=
  b.useArena && decide (b.maxOrders ≤ b.arenaBuf.length)

/-- Model of `OrderBook::failed_arena_inserts()`. -/
def failed_arena_inserts (b : OrderBook) : ℕ := b.arenaFailures

/-- Model of `OrderBook::snapshot()`. -/
def snapshot (b : OrderBook) : List Order :=
  if b.useArena then b.arenaBuf else b.fallback

/-- Fold a sequence of inserts. -/
def insertAll (b : OrderBook) (os : List Order) : OrderBook :=
  os.foldl insert b

/-- The invariant tying storage to the dedup set: every stored timestamp is
in `seen`, and the stored timestamps are pairwise distinct. -/
def seenInv (b : OrderBook) : Prop :=
  (∀ o ∈ b.snapshot, o.timestamp ∈ b.seen) ∧
  (b.snapshot.map fun o => o.timestamp).Nodup

end OrderBook

/-! ### FixedWindow (src/utils/FixedWindow.hpp) -/

/-- The state of `engine::FixedWindow<T>`: a circular `buffer` of length
`max_capacity`, the next write index `head` and the element count `count`. -/
structure FixedWindow (T : Type) where
  buffer : List T
  head : ℕ
  count : ℕ
  max_capacity : ℕ
  deriving DecidableEq, Repr

namespace FixedWindow

/-- Model of the constructor `FixedWindow<T>::FixedWindow(capacity)` as
written in src/utils/FixedWindow.hpp: it initialises `buffer(capacity)` and
`max_capacity(capacity)` and has no failure path, for any capacity
including zero. -/
def create (T : Type) [Inhabited T] (capacity : ℕ) :
    Except String (FixedWindow T) :=
  .ok ⟨List.replicate capacity default, 0, 0, capacity⟩

/-- Model of `FixedWindow<T>::capacity()`. -/
def capacity (w : FixedWindow T) : ℕ := w.max_capacity

/-- Model of `FixedWindow<T>::size()`. -/
def size (w : FixedWindow T) : ℕ := w.count

end FixedWindow

/-! ### ArenaAllocator (src/utils/ArenaAllocator.hpp) -/

/-- The state of `utils::ArenaAllocator`: the backing buffer is modelled by
its start address `base` (the value of the `buffer` pointer), with
`capacity` and the bump `offset` as in the source.  Addresses are unbounded
naturals (no 64-bit wraparound is modelled). -/
structure ArenaAllocator where
  base : ℕ
  capacity : ℕ
  offset : ℕ
  deriving DecidableEq, Repr

namespace ArenaAllocator

/-- Round `addr` up to a multiple of `align`.  The source computes
`(addr + align - 1) & ~(align - 1)` for a power-of-two `align`, which for
`align = 2^k` equals rounding down `addr + align - 1` to a multiple of
`align`, written here with truncating arithmetic. -/
def alignUp (addr align : ℕ) : ℕ :=
  (addr + align - 1) - (addr + align - 1) % align

/-- Model of `ArenaAllocator::allocate(size, alignment)`.  A throw of
`std::bad_alloc` (the `error` case) returns the allocator state unchanged:
in the source, `offset` is only assigned after the capacity check passes.
On success, the returned address is `buffer + offset - size` computed after
the bump. -/
def allocate (a : ArenaAllocator) (size align : ℕ) :
    Except String ℕ × ArenaAllocator :=
  let current := a.base + a.offset
  let aligned := alignUp current align
  let next_offset := aligned - a.base + size
  if a.capacity < next_offset then (.error "bad_alloc", a)
  else (.ok (a.base + next_offset - size), { a with offset := next_offset })

/-- Model of `ArenaAllocator::used()`. -/
def used (a : ArenaAllocator) : ℕ := a.offset

/-- Model of `ArenaAllocator::available()`. -/
def available (a : ArenaAllocator) : ℕ := a.capacity - a.offset

end ArenaAllocator

/-! ### CSV feed source (src/infrastructure/CSVFeedSource.hpp)

The line parser is modelled down to the character level.  `std::stod` /
`std::stoll` are modelled exactly on their syntax (optional spaces and
sign, decimal or hexadecimal mantissa with optional exponent, `inf` and
`nan` forms, longest-match semantics with the end position) and on their
range errors (`out_of_range` when the exact value overflows the largest
finite double or underflows the smallest positive normal one); the
decimal-to-binary rounding of in-range values is not modelled (values stay
exact rationals).  Inside `parse_line` the fields have already passed the
printable-ASCII check, so the only whitespace `stod`/`stoll` can skip is a
space. -/

namespace CSVFeedSource

/-- Denominator of the smallest positive normal double `2^-1022` (digit
literal, kernel-reduction friendly). -/
def dblMinDen : ℤ := 44942328371557897693232629769725618340449424473557664318357520289433168951375240783177119330601884005280028469967848339414697442203604155623211857659868531094441973356216371319075554900311523529863270738021251442209537670585615720368478277635206809290837627671146574559986811484619929076208839082406056034304

def isDigit (c : Char) : Bool := decide (c ≥ '0') && decide (c ≤ '9')

def isLowerAZ (c : Char) : Bool := decide (c ≥ 'a') && decide (c ≤ 'z')

def isHexDigit (c : Char) : Bool :=
  isDigit c || (isLowerAZ c.toLower && decide (c.toLower ≤ 'f'))

def digitVal (c : Char) : ℕ := c.toNat - 48

def hexVal (c : Char) : ℕ := if isDigit c then c.toNat - 48 else c.toLower.toNat - 87

def digitsToNat (ds : List Char) : ℕ := ds.foldl (fun a c => a * 10 + digitVal c) 0

def hexToNat (ds : List Char) : ℕ := ds.foldl (fun a c => a * 16 + hexVal c) 0

/-- Longest prefix satisfying `p`, with the remainder. -/
def span (p : Char → Bool) : List Char → List Char × List Char
  | [] => ([], [])
  | c :: cs =>
    if p c then
      let (a, b) := span p cs
      (c :: a, b)
    else ([], c :: cs)

/-- Optional sign character. -/
def readSign : List Char → ℤ × List Char
  | [] => (1, [])
  | c :: cs =>
    if c = '+' then (1, cs)
    else if c = '-' then (-1, cs)
    else (1, c :: cs)

/-- Optional decimal exponent `e|E [+-] digits`; not consumed when there is
no digit (longest-match backtracking as in `strtod`). -/
def readExp (cs : List Char) : ℤ × List Char :=
  match cs with
  | [] => (0, [])
  | c :: r =>
    if c = 'e' ∨ c = 'E' then
      let (es, r2) := readSign r
      let (ds, r3) := span isDigit r2
      if ds.isEmpty then (0, cs) else (es * (digitsToNat ds : ℤ), r3)
    else (0, cs)

/-- Optional binary exponent `p|P [+-] digits` of a hexadecimal literal. -/
def readPExp (cs : List Char) : ℤ × List Char :=
  match cs with
  | [] => (0, [])
  | c :: r =>
    if c = 'p' ∨ c = 'P' then
      let (es, r2) := readSign r
      let (ds, r3) := span isDigit r2
      if ds.isEmpty then (0, cs) else (es * (digitsToNat ds : ℤ), r3)
    else (0, cs)

/-- Case-insensitive keyword match, returning the remainder on success. -/
def matchCI : List Char → List Char → Option (List Char)
  | [], cs => some cs
  | _ :: _, [] => none
  | p :: ps, c :: cs => if c.toLower = p then matchCI ps cs else none

/-- The optional `(n-char-sequence)` after `nan`. -/
def nanTail (cs : List Char) : List Char :=
  match cs with
  | '(' :: r =>
    let (_, r2) := span (fun c => isDigit c || isLowerAZ c.toLower || c = '_') r
    match r2 with
    | ')' :: r3 => r3
    | _ => cs
  | _ => cs

/-- Exact value of a decimal literal `sgn ip.fp * 10^e`. -/
def assemble (sgn : ℤ) (ip fp : List Char) (e : ℤ) : FQ :=
  let m : ℤ := (digitsToNat ip : ℤ) * 10 ^ fp.length + (digitsToNat fp : ℤ)
  if 0 ≤ e then ⟨sgn * m * 10 ^ e.toNat, 10 ^ fp.length⟩
  else ⟨sgn * m, 10 ^ fp.length * 10 ^ (-e).toNat⟩

/-- Exact value of a hexadecimal literal `sgn ip.fp * 2^p` (hex mantissa). -/
def hexAssemble (sgn : ℤ) (ip fp : List Char) (p : ℤ) : FQ :=
  let m : ℤ := (hexToNat ip : ℤ) * 16 ^ fp.length + (hexToNat fp : ℤ)
  if 0 ≤ p then ⟨sgn * m * 2 ^ p.toNat, 16 ^ fp.length⟩
  else ⟨sgn * m, 16 ^ fp.length * 2 ^ (-p).toNat⟩

/-- A parsed double: `inf`/`nan` forms versus an exact finite value. -/
inductive DVal
  | nonfinite
  | finite (v : FQ)
  deriving DecidableEq, Repr

/-- Decimal branch of the `strtod` grammar: digits with optional point and
optional exponent; at least one digit overall. -/
def decimalScan (sgn : ℤ) (cs : List Char) : Option (Option FQ × List Char) :=
  let (ip, r1) := span isDigit cs
  match r1 with
  | '.' :: r2 =>
    let (fp, r3) := span isDigit r2
    if ip.isEmpty && fp.isEmpty then none
    else
      let (e, r4) := readExp r3
      some (some (assemble sgn ip fp e), r4)
  | _ =>
    if ip.isEmpty then none
    else
      let (e, r4) := readExp r1
      some (some (assemble sgn ip [] e), r4)

/-- Hexadecimal branch, entered after `0x`/`0X`; `orig` is the position
right after the leading `0`, the fallback when no hex digit follows (the
subject sequence is then just `0`). -/
def hexScan (sgn : ℤ) (tail orig : List Char) : Option (Option FQ × List Char) :=
  let (ip, r1) := span isHexDigit tail
  match r1 with
  | '.' :: r2 =>
    let (fp, r3) := span isHexDigit r2
    if ip.isEmpty && fp.isEmpty then some (some ⟨sgn * 0, 1⟩, orig)
    else
      let (p, r4) := readPExp r3
      some (some (hexAssemble sgn ip fp p), r4)
  | _ =>
    if ip.isEmpty then some (some ⟨sgn * 0, 1⟩, orig)
    else
      let (p, r4) := readPExp r1
      some (some (hexAssemble sgn ip [] p), r4)

/-- The `strtod` subject-sequence scanner: leading spaces, optional sign,
then an `inf`/`nan` form, a hexadecimal literal or a decimal literal;
`none` means no conversion (`std::invalid_argument`). -/
def stodScan (cs0 : List Char) : Option (Option FQ × List Char) :=
  let (_, cs1) := span (fun c => c = ' ') cs0
  let (sgn, cs2) := readSign cs1
  match matchCI ['i', 'n', 'f'] cs2 with
  | some r =>
    match matchCI ['i', 'n', 'i', 't', 'y'] r with
    | some r2 => some (none, r2)
    | none => some (none, r)
  | none =>
    match matchCI ['n', 'a', 'n'] cs2 with
    | some r => some (none, nanTail r)
    | none =>
      match cs2 with
      | '0' :: x :: r =>
        if x = 'x' ∨ x = 'X' then hexScan sgn r (x :: r)
        else decimalScan sgn cs2
      | _ => decimalScan sgn cs2

/-- Exact magnitude strictly below the smallest positive normal double. -/
def subnormalB (v : FQ) : Bool := decide (|v.num| * dblMinDen < v.den)

/-- Model of `std::stod(field, &end)` composed with the full-consumption
check `end == field.size()` done by `parse_line`.  A range error
(overflow beyond `DBL_MAX`, or underflow into the denormal range, where
`strtod` sets `ERANGE` and `std::stod` throws `std::out_of_range`) aborts
the parse regardless of the end position. -/
def stodFull (cs : List Char) : Option DVal :=
  match stodScan cs with
  | none => none
  | some (none, rest) => if rest.isEmpty then some .nonfinite else none
  | some (some v, rest) =>
    if !v.isfinite then none
    else if decide (v.num ≠ 0) && subnormalB v then none
    else if rest.isEmpty then some (.finite v) else none

/-- Model of `std::stoll(field, &end)` composed with the full-consumption
check: spaces, optional sign, decimal digits, 64-bit range check. -/
def stollFull (cs : List Char) : Option ℤ :=
  let (_, cs1) := span (fun c => c = ' ') cs
  let (sgn, cs2) := readSign cs1
  let (ds, rest) := span isDigit cs2
  if ds.isEmpty then none
  else
    let v : ℤ := sgn * (digitsToNat ds : ℤ)
    if decide (v < -(2 ^ 63)) || decide (2 ^ 63 - 1 < v) then none
    else if rest.isEmpty then some v else none

/-- One `std::getline(ss, token, ',')` pass: split on commas, keeping
interior empty tokens (`List.getLast?`-style trailing handling is done by
`getlineSplit`). -/
def splitAux : List Char → List Char → List (List Char)
  | [], acc => [acc]
  | c :: cs, acc =>
    if c = ',' then acc :: splitAux cs []
    else splitAux cs (acc ++ [c])

/-- The field list produced by the `getline` loop of `parse_line`: like
splitting on every comma, except that a final empty token is not produced
(`getline` fails when it extracts nothing at end of stream). -/
def getlineSplit (cs : List Char) : List (List Char) :=
  let parts := splitAux cs []
  if parts.getLast? = some [] then parts.dropLast else parts

/-- Model of the printable-ASCII check at the top of `parse_line` (any byte
below 32 or above 126 rejects the line). -/
def asciiPrintable (line : String) : Bool :=
  line.toList.all fun c => decide (32 ≤ c.toNat) && decide (c.toNat ≤ 126)

/-- Model of `CSVFeedSource::parse_line`: printable check, comma split into
exactly three fields, full numeric parse of each field, finiteness and
positivity checks on price and amount, positivity check on the timestamp. -/
def parse_line (line : String) : Option (FQ × FQ × ℤ) :=
  if !asciiPrintable line then none
  else
    match getlineSplit line.toList with
    | [f0, f1, f2] =>
      match stodFull f0 with
      | some (.finite p) =>
        if FQ.ble p (FQ.ofInt 0) then none
        else
          match stodFull f1 with
          | some (.finite a) =>
            if FQ.ble a (FQ.ofInt 0) then none
            else
              match stollFull f2 with
              | some ts => if ts ≤ 0 then none else some (p, a, ts)
              | none => none
          | _ => none
      | _ => none
    | _ => none

/-- The per-run state of `CSVFeedSource::run` observable by the claims:
the monotonicity baseline `last_ts`, the two telemetry counters and the
orders pushed to the shared queue. -/
structure CSVState where
  last_ts : ℤ
  orders_received : ℕ
  anomalies : ℕ
  queue : List Order
  deriving DecidableEq, Repr

/-- One iteration of the `run` loop on one line: a `parse_line` failure or
a non-increasing timestamp counts an anomaly; otherwise `last_ts` advances
and the validating `Order` constructor runs — its throw is caught and
counted as an anomaly (with `last_ts` already advanced), else the order is
enqueued and `orders_received` incremented. -/
def runStep (st : CSVState) (line : String) : CSVState :=
  match parse_line line with
  | none => { st with anomalies := st.anomalies + 1 }
  | some (p, a, ts) =>
    if ts ≤ st.last_ts then { st with anomalies := st.anomalies + 1 }
    else
      match Order.create p a ts with
      | .ok o => { st with last_ts := ts,
                           orders_received := st.orders_received + 1,
                           queue := st.queue ++ [o] }
      | .error _ => { st with last_ts := ts, anomalies := st.anomalies + 1 }

/-- The whole `run` over a file: `last_ts` starts at 0, counters at zero. -/
def run (lines : List String) : CSVState :=
  lines.foldl runStep ⟨0, 0, 0, []⟩

/-- The behaviour claim C4 words predict (for its counterexample): a line
is rejected only on the six listed conditions — all captured by
`parse_line` — or a timestamp not above the previously ACCEPTED one, and
every other line is enqueued; in particular Order-constructor bounds play
no role and `last_ts` only advances on accepted lines. -/
def claimStep (st : CSVState) (line : String) : CSVState :=
  match parse_line line with
  | none => { st with anomalies := st.anomalies + 1 }
  | some (p, a, ts) =>
    if ts ≤ st.last_ts then { st with anomalies := st.anomalies + 1 }
    else { st with last_ts := ts,
                   orders_received := st.orders_received + 1,
                   queue := st.queue ++ [⟨p, a, ts⟩] }

/-- The full run as claim C4 words predict it. -/
def claimRun (lines : List String) : CSVState :=
  lines.foldl claimStep ⟨0, 0, 0, []⟩

end CSVFeedSource

/-! ### Bandwidth throttle (src/feed/TCPLatencyProxy.cpp) -/

/-- `kMinQuantumBytes` of the proxy. -/
def kMinQuantumBytes : ℤ := 1024

/-- `kMaxGbpsKbps`: the 1 Gbps clamp of the throttle constructor. -/
def kMaxGbpsKbps : ℤ := 1000000

/-- The fields of `PrecisionBandwidthThrottle` fixed by its constructor.
C++ `int`/`int64_t` arithmetic is modelled on unbounded ℤ (the clamp keeps
every intermediate far below the 64-bit range). -/
structure PrecisionBandwidthThrottle where
  kbps : ℤ
  num_bytes_per_s : ℤ
  max_tokens : ℤ
  tokens : ℤ
  deriving DecidableEq, Repr

namespace PrecisionBandwidthThrottle

/-- Model of the constructor `PrecisionBandwidthThrottle(kbps, burst,
burst_seconds)`: clamp to 1 Gbps, `rate = safe_kbps * 1000 / 8` (always
exact: `kbps * 1000` is a multiple of 8), `max_tokens = rate * max(1,
burst ? burst_seconds : 1)` raised to the 1 KiB minimum quantum whenever
the rate is positive, and a full bucket when burst is enabled. -/
def create (kbps : ℤ) (burst : Bool) (burst_seconds : ℤ) :
    PrecisionBandwidthThrottle :=
  let safe_kbps := min kbps kMaxGbpsKbps
  let nps := safe_kbps * 1000 / 8
  let mt0 := nps * max 1 (if burst then burst_seconds else 1)
  let mt := if 0 < nps then max mt0 kMinQuantumBytes else mt0
  { kbps := kbps, num_bytes_per_s := nps, max_tokens := mt,
    tokens := if burst then mt else 0 }

end PrecisionBandwidthThrottle

/-! ### Feed status machine and manager (src/feed/IFeedSource.hpp,
src/feed/FeedManager.hpp) -/

inductive FeedStatus
  | idle
  | running
  | stopped
  | completed
  deriving DecidableEq, Repr

/-- The per-source state `start_all` interacts with: the atomic status,
whether the manager currently holds a worker-thread handle for this source
(`running_.count(key)`), and the source tag. -/
structure FeedSourceState where
  status : FeedStatus
  hasThread : Bool
  tag : String
  deriving DecidableEq, Repr

/-- Model of `IFeedSource::try_set_running`: an atomic compare-exchange of
the status from Idle to Running, reporting success. -/
def try_set_running (s : FeedSourceState) : Bool × FeedSourceState :=
  if s.status = .idle then (true, { s with status := .running })
  else (false, s)

/-- The `start_all` loop body over the source list, carrying the local
`started_tags` set.  `cleanup_finished_thread` is the identity in every
reachable state (a finished `std::jthread` stays joinable until `stop_all`
joins it, so the erase-if-not-joinable never fires) and is therefore not
modelled as a state change.  The returned number counts the spawned
workers, i.e. the `run()` invocations. -/
def startAllGo (uniqueTags : Bool) :
    List FeedSourceState → List String → List FeedSourceState × ℕ
  | [], _ => ([], 0)
  | s :: rest, started =>
    if uniqueTags && started.contains s.tag then
      let (rs, n) := startAllGo uniqueTags rest started
      (s :: rs, n)
    else if s.hasThread then
      let (rs, n) := startAllGo uniqueTags rest (started ++ [s.tag])
      (s :: rs, n)
    else
      match try_set_running s with
      | (true, s2) =>
        let (rs, n) := startAllGo uniqueTags rest (started ++ [s.tag])
        ({ s2 with hasThread := true } :: rs, n + 1)
      | (false, s2) =>
        let (rs, n) := startAllGo uniqueTags rest (started ++ [s.tag])
        (s2 :: rs, n)

/-- Model of `FeedManager::start_all(unique_tags)`: the new source states
and the number of `run()` invocations. -/
def startAll (uniqueTags : Bool) (sources : List FeedSourceState) :
    List FeedSourceState × ℕ :=
  startAllGo uniqueTags sources []

/-- Worker progress between two manager calls: any subset of the spawned
running workers (selected by `fin` on the position) may finish `run()`;
the worker-thread wrapper then stores status Completed. -/
def completeWorkers (fin : ℕ → Bool) : ℕ → List FeedSourceState →
    List FeedSourceState
  | _, [] => []
  | i, s :: rest =>
    (if fin i ∧ s.status = .running ∧ s.hasThread = true then
      { s with status := .completed } else s) :: completeWorkers fin (i + 1) rest

/-! ### Concrete scenario states -/

/-- Scenario S1: three orders `(100,1,1725000000)`, `(101,2,1725000020)`,
`(102,1.5,1725000050)` fed to a generator with `window_duration = 60`. -/
def s1gen : CandlestickGenerator :=
  (((CandlestickGenerator.init 60).insert ⟨FQ.ofInt 100, FQ.ofInt 1, 1725000000⟩).insert
      ⟨FQ.ofInt 101, FQ.ofInt 2, 1725000020⟩).insert ⟨FQ.ofInt 102, ⟨3, 2⟩, 1725000050⟩

/-- Scenario S2: scenario S1 with the extra late order `(105,1,1725000100)`
inserted before the flush. -/
def s2gen : CandlestickGenerator :=
  s1gen.insert ⟨FQ.ofInt 105, FQ.ofInt 1, 1725000100⟩

/-- Scenario S5: 100 orders with timestamps `1725000000..1725000099`, then
10 orders reusing timestamps `1725000000..1725000009` with price 999. -/
def s5orders : List Order :=
  ((List.range 100).map fun i => ⟨FQ.ofInt 100, FQ.ofInt 1, 1725000000 + (i : ℤ)⟩) ++
  ((List.range 10).map fun i => ⟨FQ.ofInt 999, FQ.ofInt 1, 1725000000 + (i : ℤ)⟩)

/-- Scenario S4: 20 orders with pairwise distinct valid timestamps. -/
def s4orders : List Order :=
  (List.range 20).map fun i => ⟨FQ.ofInt 100, FQ.ofInt 1, 1725000000 + (i : ℤ)⟩

/-- Scenario S4 book: an arena with room for exactly 10 orders, after the
20 inserts. -/
def s4book : OrderBook :=
  OrderBook.insertAll (OrderBook.mkArena 10) s4orders

/-- Scenario S3: the five CSV lines. -/
def s3lines : List String :=
  ["100.0,1.0,1725621000", "INVALID", "102.0,1.0,1725621002",
   "100.0;1.0;1725621003", "103.0,1.0,1725621004"]

/-- The two lines separating claim C4 from the code: the first parses to a
finite positive price 2000000 above `MAX_PRICE` (the Order constructor
rejects it and `last_ts` still advances), the second has a smaller
timestamp than the first. -/
def c4lines : List String :=
  ["2000000.0,1.0,1725621010", "100.0,1.0,1725621005"]

/-- A generator state whose single accumulated order has an amount beyond
the largest finite double, so the very first checked addition of the flush
loop overflows. -/
def overflowGen : CandlestickGenerator :=
  ⟨[⟨FQ.ofInt 100, ⟨dblMax + 1, 1⟩, 1725000000⟩], 1725000000, 60, 1, 0, 0⟩

/-! ### Theorems: double-model lemmas -/

theorem dblMax_eq : dblMax = 2 ^ 1024 - 2 ^ 971 := by norm_num [dblMax]

namespace FQ

@[simp] theorem val_ofInt (n : ℤ) : (ofInt n).val = (n : ℚ) := by
  simp [ofInt, val]

theorem wf_ofInt (n : ℤ) : (ofInt n).wf := by
  simp [ofInt, wf]

theorem wf_add {x y : FQ} (hx : x.wf) (hy : y.wf) : (add x y).wf :=
  mul_pos hx hy

theorem val_add {x y : FQ} (hx : x.wf) (hy : y.wf) :
    (add x y).val = x.val + y.val := by
  unfold wf at hx hy
  have hx0 : (x.den : ℚ) ≠ 0 := by exact_mod_cast hx.ne.symm
  have hy0 : (y.den : ℚ) ≠ 0 := by exact_mod_cast hy.ne.symm
  unfold add val
  push_cast
  field_simp

theorem blt_iff {x y : FQ} (hx : x.wf) (hy : y.wf) :
    blt x y = true ↔ x.val < y.val := by
  unfold wf at hx hy
  have hx0 : (0 : ℚ) < (x.den : ℚ) := by exact_mod_cast hx
  have hy0 : (0 : ℚ) < (y.den : ℚ) := by exact_mod_cast hy
  unfold blt val
  rw [decide_eq_true_iff, div_lt_div_iff₀ hx0 hy0]
  constructor
  · intro h; exact_mod_cast h
  · intro h; exact_mod_cast h

theorem ble_iff {x y : FQ} (hx : x.wf) (hy : y.wf) :
    ble x y = true ↔ x.val ≤ y.val := by
  unfold wf at hx hy
  have hx0 : (0 : ℚ) < (x.den : ℚ) := by exact_mod_cast hx
  have hy0 : (0 : ℚ) < (y.den : ℚ) := by exact_mod_cast hy
  unfold ble val
  rw [decide_eq_true_iff, div_le_div_iff₀ hx0 hy0]
  constructor
  · intro h; exact_mod_cast h
  · intro h; exact_mod_cast h

theorem isfinite_iff {x : FQ} (hx : x.wf) :
    x.isfinite = true ↔ |x.val| ≤ (dblMax : ℚ) := by
  unfold wf at hx
  have hx0 : (0 : ℚ) < (x.den : ℚ) := by exact_mod_cast hx
  unfold isfinite val
  rw [decide_eq_true_iff, abs_div, abs_of_pos hx0, div_le_iff₀ hx0]
  constructor
  · intro h; exact_mod_cast h
  · intro h; exact_mod_cast h

end FQ

/-! ### Generator lemmas -/

namespace CandlestickGenerator

/-- The high accumulator of the flush loop yields the initial value or the
price of some order of the window. -/
theorem foldHigh_mem (l : List Order) (a : FQ) :
    l.foldl (fun h o => if FQ.blt h o.price then o.price else h) a = a ∨
    ∃ o ∈ l, l.foldl (fun h o => if FQ.blt h o.price then o.price else h) a = o.price := by
  induction l generalizing a with
  | nil => exact .inl rfl
  | cons x xs ih =>
    simp only [List.foldl_cons]
    rcases ih (if FQ.blt a x.price then x.price else a) with h | ⟨o, ho, he⟩
    · by_cases hb : FQ.blt a x.price
      · right
        refine ⟨x, List.mem_cons_self x xs, ?_⟩
        rw [h, if_pos hb]
      · left
        rw [h, if_neg hb]
    · exact .inr ⟨o, List.mem_cons_of_mem x ho, he⟩

/-- The low accumulator of the flush loop yields the initial value or the
price of some order of the window. -/
theorem foldLow_mem (l : List Order) (a : FQ) :
    l.foldl (fun m o => if FQ.blt o.price m then o.price else m) a = a ∨
    ∃ o ∈ l, l.foldl (fun m o => if FQ.blt o.price m then o.price else m) a = o.price := by
  induction l generalizing a with
  | nil => exact .inl rfl
  | cons x xs ih =>
    simp only [List.foldl_cons]
    rcases ih (if FQ.blt x.price a then x.price else a) with h | ⟨o, ho, he⟩
    · by_cases hb : FQ.blt x.price a
      · right
        refine ⟨x, List.mem_cons_self x xs, ?_⟩
        rw [h, if_pos hb]
      · left
        rw [h, if_neg hb]
    · exact .inr ⟨o, List.mem_cons_of_mem x ho, he⟩

/-- The high accumulator is well-formed and an upper bound of the initial
value and of every price in the window. -/
theorem foldHigh_bound (l : List Order) (a : FQ) (ha : a.wf)
    (hl : ∀ o ∈ l, o.price.wf) :
    (l.foldl (fun h o => if FQ.blt h o.price then o.price else h) a).wf ∧
    a.val ≤ (l.foldl (fun h o => if FQ.blt h o.price then o.price else h) a).val ∧
    ∀ o ∈ l, o.price.val ≤
      (l.foldl (fun h o => if FQ.blt h o.price then o.price else h) a).val := by
  induction l generalizing a with
  | nil => exact ⟨ha, le_refl _, by simp⟩
  | cons x xs ih =>
    have hx : x.price.wf := hl x (List.mem_cons_self x xs)
    have hxs : ∀ o ∈ xs, o.price.wf := fun o ho => hl o (List.mem_cons_of_mem x ho)
    simp only [List.foldl_cons]
    by_cases hb : FQ.blt a x.price
    · have halt : a.val < x.price.val := (FQ.blt_iff ha hx).mp hb
      obtain ⟨hwf, hinit, hmem⟩ := ih x.price hx hxs
      rw [if_pos hb]
      refine ⟨hwf, le_of_lt (lt_of_lt_of_le halt hinit), ?_⟩
      intro o ho
      rcases List.mem_cons.mp ho with rfl | ho
      · exact hinit
      · exact hmem o ho
    · have hxa : x.price.val ≤ a.val := by
        have := (FQ.blt_iff ha hx).not.mp (by simp [hb])
        exact le_of_not_lt this
      obtain ⟨hwf, hinit, hmem⟩ := ih a ha hxs
      rw [if_neg hb]
      refine ⟨hwf, hinit, ?_⟩
      intro o ho
      rcases List.mem_cons.mp ho with rfl | ho
      · exact le_trans hxa hinit
      · exact hmem o ho

/-- The low accumulator is well-formed and a lower bound of the initial
value and of every price in the window. -/
theorem foldLow_bound (l : List Order) (a : FQ) (ha : a.wf)
    (hl : ∀ o ∈ l, o.price.wf) :
    (l.foldl (fun m o => if FQ.blt o.price m then o.price else m) a).wf ∧
    (l.foldl (fun m o => if FQ.blt o.price m then o.price else m) a).val ≤ a.val ∧
    ∀ o ∈ l,
      (l.foldl (fun m o => if FQ.blt o.price m then o.price else m) a).val ≤
        o.price.val := by
  induction l generalizing a with
  | nil => exact ⟨ha, le_refl _, by simp⟩
  | cons x xs ih =>
    have hx : x.price.wf := hl x (List.mem_cons_self x xs)
    have hxs : ∀ o ∈ xs, o.price.wf := fun o ho => hl o (List.mem_cons_of_mem x ho)
    simp only [List.foldl_cons]
    by_cases hb : FQ.blt x.price a
    · have halt : x.price.val < a.val := (FQ.blt_iff hx ha).mp hb
      obtain ⟨hwf, hinit, hmem⟩ := ih x.price hx hxs
      rw [if_pos hb]
      refine ⟨hwf, le_of_lt (lt_of_le_of_lt hinit halt), ?_⟩
      intro o ho
      rcases List.mem_cons.mp ho with rfl | ho
      · exact hinit
      · exact hmem o ho
    · have hxa : a.val ≤ x.price.val := by
        have := (FQ.blt_iff hx ha).not.mp (by simp [hb])
        exact le_of_not_lt this
      obtain ⟨hwf, hinit, hmem⟩ := ih a ha hxs
      rw [if_neg hb]
      refine ⟨hwf, hinit, ?_⟩
      intro o ho
      rcases List.mem_cons.mp ho with rfl | ho
      · exact le_trans hinit hxa
      · exact hmem o ho

/-- A successful checked volume summation computes the exact sum of the
initial value and the order amounts. -/
theorem sumVolumes_ok (l : List Order) (v r : FQ) (hv : v.wf)
    (hl : ∀ o ∈ l, o.amount.wf) (h : sumVolumes v l = .ok r) :
    r.wf ∧ r.val = v.val + (l.map fun o => o.amount.val).sum := by
  induction l generalizing v with
  | nil =>
    simp only [sumVolumes] at h
    cases h
    exact ⟨hv, by simp⟩
  | cons x xs ih =>
    have hx : x.amount.wf := hl x (List.mem_cons_self x xs)
    have hxs : ∀ o ∈ xs, o.amount.wf := fun o ho => hl o (List.mem_cons_of_mem x ho)
    simp only [sumVolumes] at h
    by_cases hf : (FQ.add v x.amount).isfinite
    · rw [if_pos hf] at h
      obtain ⟨hwf, hval⟩ := ih (FQ.add v x.amount) (FQ.wf_add hv hx) hxs h
      refine ⟨hwf, ?_⟩
      rw [hval, FQ.val_add hv hx]
      simp [add_assoc]
    · rw [if_neg hf] at h
      cases h

end CandlestickGenerator

/-! ### Claim C1 -/

/-- C1: `flush_if_ready t` returns `none` when the window is empty and when
`t < window_start + window_duration`; otherwise (for a positive duration,
well-formed non-negative amounts and a volume summation that stays finite)
it returns the candle whose open is the first accumulated price, close the
last, high the maximum accumulated price, low the minimum, volume the sum
of the amounts, and whose window is `[window_start, window_start +
window_duration]`, clearing the window and the counters.  The scenario-S1
instance is the witness theorem. -/
theorem flush_if_ready_ohlcv :
    (∀ (g : CandlestickGenerator) (t : ℤ), g.window = [] →
        g.flush_if_ready t = (.ok none, g)) ∧
    (∀ (g : CandlestickGenerator) (t : ℤ),
        t < g.window_start + g.window_duration →
        g.flush_if_ready t = (.ok none, g)) ∧
    (∀ (g : CandlestickGenerator) (t : ℤ) (first : Order) (rest : List Order) (vol : FQ),
        g.window = first :: rest →
        g.window_start + g.window_duration ≤ t →
        0 < g.window_duration →
        (∀ o ∈ g.window, o.price.wf) →
        (∀ o ∈ g.window, o.amount.wf) →
        (∀ o ∈ g.window, FQ.blt o.amount (FQ.ofInt 0) = false) →
        CandlestickGenerator.sumVolumes (FQ.ofInt 0) g.window = .ok vol →
        g.flush_if_ready t =
          (.ok (some ⟨first.price, windowHigh first rest, windowLow first rest,
              windowClose first rest, vol,
              g.window_start, g.window_start + g.window_duration⟩),
           { g with window := [], accepted_orders := 0, late_orders := 0,
                    dropped_orders := 0 }) ∧
        (∃ o ∈ g.window, windowHigh first rest = o.price) ∧
        (∀ o ∈ g.window, o.price.val ≤ (windowHigh first rest).val) ∧
        (∃ o ∈ g.window, windowLow first rest = o.price) ∧
        (∀ o ∈ g.window, (windowLow first rest).val ≤ o.price.val) ∧
        vol.val = (g.window.map fun o => o.amount.val).sum) := by
  refine ⟨?_, ?_, ?_⟩
  · intro g t hw
    unfold CandlestickGenerator.flush_if_ready
    rw [hw]
  · intro g t ht
    unfold CandlestickGenerator.flush_if_ready
    cases hw : g.window with
    | nil => rfl
    | cons first rest =>
      dsimp only
      rw [if_neg (not_le.mpr ht)]
  · intro g t first rest vol hw ht hd hpw haw hnn hvol
    obtain ⟨win, ws, dur, acc, late, drop⟩ := g
    dsimp only at hw ht hd hpw haw hnn hvol ⊢
    subst hw
    have hfw : first.price.wf := hpw first (List.mem_cons_self first rest)
    obtain ⟨hhwf, hhinit, hhmem⟩ :=
      CandlestickGenerator.foldHigh_bound (first :: rest) first.price hfw hpw
    obtain ⟨hlwf, hlinit, hlmem⟩ :=
      CandlestickGenerator.foldLow_bound (first :: rest) first.price hfw hpw
    obtain ⟨hvwf, hvval⟩ := CandlestickGenerator.sumVolumes_ok (first :: rest)
      (FQ.ofInt 0) vol (FQ.wf_ofInt 0) haw hvol
    have hclmem : (first :: rest).getLast (List.cons_ne_nil first rest) ∈ first :: rest :=
      List.getLast_mem _
    have hclwf : (windowClose first rest).wf := hpw _ hclmem
    have hvnonneg : 0 ≤ vol.val := by
      rw [hvval, FQ.val_ofInt]
      push_cast
      rw [zero_add]
      refine List.sum_nonneg ?_
      intro q hq
      obtain ⟨o, ho, rfl⟩ := List.mem_map.mp hq
      have hb := hnn o ho
      have := (FQ.blt_iff (haw o ho) (FQ.wf_ofInt 0)).not.mp (by simp [hb])
      rw [FQ.val_ofInt] at this
      push_cast at this
      exact le_of_not_lt this
    have hble1 : FQ.ble (windowLow first rest) first.price = true :=
      (FQ.ble_iff hlwf hfw).mpr hlinit
    have hble2 : FQ.ble first.price (windowHigh first rest) = true :=
      (FQ.ble_iff hfw hhwf).mpr hhinit
    have hble3 : FQ.ble (windowLow first rest) (windowClose first rest) = true :=
      (FQ.ble_iff hlwf hclwf).mpr (hlmem _ hclmem)
    have hble4 : FQ.ble (windowClose first rest) (windowHigh first rest) = true :=
      (FQ.ble_iff hclwf hhwf).mpr (hhmem _ hclmem)
    have hts : (decide ((ws + dur : ℤ) ≤ ws)) = false :=
      decide_eq_false (by omega)
    have hvneg : FQ.blt vol (FQ.ofInt 0) = false := by
      have hnot : ¬ (FQ.blt vol (FQ.ofInt 0) = true) := by
        rw [FQ.blt_iff hvwf (FQ.wf_ofInt 0), FQ.val_ofInt]
        push_cast
        exact not_lt.mpr hvnonneg
      simpa using hnot
    have hcreate : Candlestick.create first.price (windowHigh first rest)
        (windowLow first rest) (windowClose first rest) vol ws (ws + dur) =
        .ok ⟨first.price, windowHigh first rest, windowLow first rest,
          windowClose first rest, vol, ws, ws + dur⟩ := by
      unfold Candlestick.create
      rw [hble1, hble2, hble3, hble4, hts, hvneg]
      rfl
    have hhmemEx : ∃ o ∈ first :: rest, windowHigh first rest = o.price := by
      rcases CandlestickGenerator.foldHigh_mem (first :: rest) first.price with h | ⟨o, ho, h⟩
      · exact ⟨first, List.mem_cons_self first rest, h⟩
      · exact ⟨o, ho, h⟩
    have hlmemEx : ∃ o ∈ first :: rest, windowLow first rest = o.price := by
      rcases CandlestickGenerator.foldLow_mem (first :: rest) first.price with h | ⟨o, ho, h⟩
      · exact ⟨first, List.mem_cons_self first rest, h⟩
      · exact ⟨o, ho, h⟩
    refine ⟨?_, hhmemEx, hhmem, hlmemEx, hlmem, ?_⟩
    · unfold CandlestickGenerator.flush_if_ready
      dsimp only
      rw [if_pos ht, hvol]
      dsimp only
      rw [hcreate]
    · rw [hvval, FQ.val_ofInt]
      push_cast
      rw [zero_add]

/-- Witness for C1 at scenario S1: `flush_if_ready 1725000055` returns
`none`; `flush_if_ready 1725000061` returns the candle
`(open 100, high 102, low 100, close 102, volume 4.5, start 1725000000,
end 1725000060)` and clears the window. -/
theorem flush_if_ready_ohlcv_witness :
    s1gen.flush_if_ready 1725000055 = (.ok none, s1gen) ∧
    s1gen.flush_if_ready 1725000061 =
      (.ok (some ⟨FQ.ofInt 100, FQ.ofInt 102, FQ.ofInt 100, FQ.ofInt 102, ⟨9, 2⟩,
        1725000000, 1725000060⟩),
       ⟨[], 1725000000, 60, 0, 0, 0⟩) := by
  constructor
  · exact flush_if_ready_ohlcv.2.1 s1gen 1725000055 (by decide)
  · have h := flush_if_ready_ohlcv.2.2 s1gen 1725000061
      ⟨FQ.ofInt 100, FQ.ofInt 1, 1725000000⟩
      [⟨FQ.ofInt 101, FQ.ofInt 2, 1725000020⟩, ⟨FQ.ofInt 102, ⟨3, 2⟩, 1725000050⟩]
      ⟨9, 2⟩ (by decide) (by decide) (by decide) (by decide) (by decide) (by decide)
      (by decide)
    exact h.1.trans (by decide)

/-! ### Claim C2 -/

/-- C2: on a generator with a non-empty window, `insert` of an order with
`timestamp >= window_start + window_duration` only increments the late
counter (the window is unchanged), and `insert` of an order with
`timestamp < window_start + window_duration` appends the order and
increments the accepted counter.  Consequently scenario S2 (S1 plus a late
order `(105,1,1725000100)`) has a `late_orders` count of 1 and flushes to
the same candle as S1. -/
theorem insert_late_policy :
    (∀ (g : CandlestickGenerator) (o : Order), g.window ≠ [] →
      (g.window_start + g.window_duration ≤ o.timestamp →
        g.insert o = { g with late_orders := g.late_orders + 1 }) ∧
      (o.timestamp < g.window_start + g.window_duration →
        g.insert o = { g with window := g.window ++ [o],
                              accepted_orders := g.accepted_orders + 1 })) ∧
    s2gen.late_orders = 1 ∧
    (s2gen.flush_if_ready 1725000061).1 = (s1gen.flush_if_ready 1725000061).1 := by
  refine ⟨?_, by decide, by decide⟩
  intro g o hne
  have hemp : g.window.isEmpty = false := by
    cases hw : g.window with
    | nil => exact absurd hw hne
    | cons a l => rfl
  constructor
  · intro hlate
    unfold CandlestickGenerator.insert
    simp only [hemp, Bool.false_eq_true, if_false]
    rw [if_neg (not_lt.mpr hlate)]
  · intro hacc
    unfold CandlestickGenerator.insert
    simp only [hemp, Bool.false_eq_true, if_false]
    rw [if_pos hacc]

/-- Witness for C2: inserting the late order `(105,1,1725000100)` into the
scenario-S1 generator bumps only the late counter. -/
theorem insert_late_policy_witness :
    s1gen.insert ⟨FQ.ofInt 105, FQ.ofInt 1, 1725000100⟩ =
      ⟨s1gen.window, 1725000000, 60, 3, 1, 0⟩ := by
  have h := (insert_late_policy.1 s1gen ⟨FQ.ofInt 105, FQ.ofInt 1, 1725000100⟩
    (by decide)).1 (by decide)
  exact h.trans (by decide)

/-! ### OrderBook lemmas -/

namespace OrderBook

theorem contains_iff {l : List ℤ} {t : ℤ} : l.contains t = true ↔ t ∈ l := by
  simp

/-- An insert whose timestamp is already in the dedup set changes nothing. -/
theorem insert_of_dup {b : OrderBook} {o : Order} (h : o.timestamp ∈ b.seen) :
    b.insert o = b := by
  unfold insert
  rw [if_pos (contains_iff.mpr h)]

theorem mem_seen_insert {b : OrderBook} {o : Order} {t : ℤ} :
    t ∈ (b.insert o).seen ↔ t ∈ b.seen ∨ t = o.timestamp := by
  unfold insert
  by_cases hc : b.seen.contains o.timestamp
  · rw [if_pos hc]
    have hm : o.timestamp ∈ b.seen := contains_iff.mp hc
    constructor
    · exact fun h => .inl h
    · rintro (h | rfl)
      · exact h
      · exact hm
  · rw [if_neg hc]
    by_cases ha : b.useArena
    · rw [if_pos ha]
      by_cases hf : b.maxOrders ≤ b.arenaBuf.length
      · rw [if_pos hf]; simp [List.mem_append]
      · rw [if_neg hf]
        by_cases hv : o.validB
        · rw [if_pos hv]; simp [List.mem_append]
        · rw [if_neg hv]; simp [List.mem_append]
    · rw [if_neg ha]; simp [List.mem_append]

theorem mem_seen_insertAll {os : List Order} {b : OrderBook} {t : ℤ} :
    t ∈ (b.insertAll os).seen ↔ t ∈ b.seen ∨ ∃ p ∈ os, p.timestamp = t := by
  induction os generalizing b with
  | nil => simp [insertAll]
  | cons p ps ih =>
    show t ∈ ((b.insert p).insertAll ps).seen ↔ _
    rw [ih, mem_seen_insert]
    constructor
    · rintro ((h | h) | ⟨q, hq, rfl⟩)
      · exact .inl h
      · exact .inr ⟨p, List.mem_cons_self p ps, h.symm⟩
      · exact .inr ⟨q, List.mem_cons_of_mem p hq, rfl⟩
    · rintro (h | ⟨q, hq, rfl⟩)
      · exact .inl (.inl h)
      · rcases List.mem_cons.mp hq with rfl | hq
        · exact .inl (.inr rfl)
        · exact .inr ⟨q, hq, rfl⟩

theorem seenInv_insert {b : OrderBook} (o : Order) (h : b.seenInv) :
    (b.insert o).seenInv := by
  obtain ⟨hsub, hnd⟩ := h
  by_cases hc : b.seen.contains o.timestamp
  · rw [insert_of_dup (contains_iff.mp hc)]
    exact ⟨hsub, hnd⟩
  · have hnotin : o.timestamp ∉ b.seen := fun hm => hc (contains_iff.mpr hm)
    unfold insert
    rw [if_neg hc]
    by_cases ha : b.useArena
    · rw [if_pos ha]
      have hsnap : b.snapshot = b.arenaBuf := by unfold snapshot; rw [if_pos ha]
      by_cases hf : b.maxOrders ≤ b.arenaBuf.length
      · rw [if_pos hf]
        refine ⟨?_, ?_⟩
        · intro q hq
          have : q ∈ b.snapshot := by
            unfold snapshot at *
            simpa [ha] using hq
          exact List.mem_append_left _ (hsub q this)
        · unfold seenInv snapshot at *
          simpa [ha] using hnd
      · rw [if_neg hf]
        have hfresh : o.timestamp ∉ b.arenaBuf.map fun q => q.timestamp := by
          intro hm
          obtain ⟨q, hq, hqe⟩ := List.mem_map.mp hm
          exact hnotin (hqe ▸ hsub q (hsnap ▸ hq))
        by_cases hv : o.validB
        · rw [if_pos hv]
          refine ⟨?_, ?_⟩
          · intro q hq
            have hq2 : q ∈ b.arenaBuf ++ [o] := by
              unfold snapshot at hq
              simpa [ha] using hq
            rcases List.mem_append.mp hq2 with hq3 | hq3
            · exact List.mem_append_left _ (hsub q (hsnap ▸ hq3))
            · have : q = o := List.mem_singleton.mp hq3
              subst this
              exact List.mem_append_right _ (List.mem_singleton.mpr rfl)
          · have : ((b.arenaBuf ++ [o]).map fun q => q.timestamp).Nodup := by
              rw [List.map_append]
              rw [List.nodup_append]
              refine ⟨by rw [hsnap] at hnd; exact hnd, List.nodup_singleton _, ?_⟩
              intro t ht ht2
              have : t = o.timestamp := by simpa using ht2
              subst this
              exact hfresh ht
            unfold snapshot
            simpa [ha] using this
        · rw [if_neg hv]
          refine ⟨?_, ?_⟩
          · intro q hq
            have : q ∈ b.snapshot := by
              unfold snapshot at *
              simpa [ha] using hq
            exact List.mem_append_left _ (hsub q this)
          · unfold snapshot at *
            simpa [ha] using hnd
    · rw [if_neg ha]
      have hsnap : b.snapshot = b.fallback := by unfold snapshot; rw [if_neg ha]
      have hfresh : o.timestamp ∉ b.fallback.map fun q => q.timestamp := by
        intro hm
        obtain ⟨q, hq, hqe⟩ := List.mem_map.mp hm
        exact hnotin (hqe ▸ hsub q (hsnap ▸ hq))
      refine ⟨?_, ?_⟩
      · intro q hq
        have hq2 : q ∈ b.fallback ++ [o] := by
          unfold snapshot at hq
          simpa [ha] using hq
        rcases List.mem_append.mp hq2 with hq3 | hq3
        · exact List.mem_append_left _ (hsub q (hsnap ▸ hq3))
        · have : q = o := List.mem_singleton.mp hq3
          subst this
          exact List.mem_append_right _ (List.mem_singleton.mpr rfl)
      · have : ((b.fallback ++ [o]).map fun q => q.timestamp).Nodup := by
          rw [List.map_append, List.nodup_append]
          refine ⟨by rw [hsnap] at hnd; exact hnd, List.nodup_singleton _, ?_⟩
          intro t ht ht2
          have : t = o.timestamp := by simpa using ht2
          subst this
          exact hfresh ht
        unfold snapshot
        simpa [ha] using this

theorem seenInv_insertAll (os : List Order) {b : OrderBook} (h : b.seenInv) :
    (b.insertAll os).seenInv := by
  induction os generalizing b with
  | nil => exact h
  | cons p ps ih =>
    show ((b.insert p).insertAll ps).seenInv
    exact ih (seenInv_insert p h)

/-- Filling an arena-mode book with fresh, pairwise-distinct, valid-order
inserts: storage grows until the slab capacity and every further insert
lands in the failure counter. -/
theorem arena_fill (os : List Order) (b : OrderBook)
    (hA : b.useArena = true)
    (hcap : b.arenaBuf.length ≤ b.maxOrders)
    (hfresh : ∀ o ∈ os, o.timestamp ∉ b.seen)
    (hnd : (os.map fun o => o.timestamp).Nodup)
    (hval : ∀ o ∈ os, o.validB = true) :
    (b.insertAll os).useArena = true ∧
    (b.insertAll os).maxOrders = b.maxOrders ∧
    (b.insertAll os).arenaBuf.length = min (b.arenaBuf.length + os.length) b.maxOrders ∧
    (b.insertAll os).arenaFailures =
      b.arenaFailures + (b.arenaBuf.length + os.length - b.maxOrders) := by
  induction os generalizing b with
  | nil =>
    refine ⟨hA, rfl, ?_, ?_⟩ <;> simp [insertAll] <;> omega
  | cons o os ih =>
    have hc : b.seen.contains o.timestamp = false := by
      rcases hb : b.seen.contains o.timestamp with _ | _
      · rfl
      · exact absurd (contains_iff.mp hb) (hfresh o (List.mem_cons_self o os))
    have hstep : b.insertAll (o :: os) = (b.insert o).insertAll os := rfl
    have hnd2 : (os.map fun q => q.timestamp).Nodup := (List.nodup_cons.mp hnd).2
    have hne : ∀ q ∈ os, q.timestamp ≠ o.timestamp := by
      intro q hq he
      exact (List.nodup_cons.mp hnd).1 (List.mem_map.mpr ⟨q, hq, he⟩)
    have hval2 : ∀ q ∈ os, q.validB = true :=
      fun q hq => hval q (List.mem_cons_of_mem o hq)
    rw [hstep]
    unfold insert
    rw [hc]
    simp only [Bool.false_eq_true, if_false]
    rw [if_pos hA]
    by_cases hf : b.maxOrders ≤ b.arenaBuf.length
    · rw [if_pos hf]
      have hcfull : b.arenaBuf.length = b.maxOrders := le_antisymm hcap hf
      obtain ⟨h1, h2, h3, h4⟩ := ih
        { b with seen := b.seen ++ [o.timestamp],
                 arenaFailures := b.arenaFailures + 1 }
        hA hcap
        (by
          intro q hq hm
          rcases List.mem_append.mp hm with hm | hm
          · exact hfresh q (List.mem_cons_of_mem o hq) hm
          · exact hne q hq (List.mem_singleton.mp hm))
        hnd2 hval2
      refine ⟨h1, h2, ?_, ?_⟩
      · rw [h3]
        show min (b.arenaBuf.length + os.length) b.maxOrders =
          min (b.arenaBuf.length + (o :: os).length) b.maxOrders
        simp only [List.length_cons]
        omega
      · rw [h4]
        show (b.arenaFailures + 1) + (b.arenaBuf.length + os.length - b.maxOrders) =
          b.arenaFailures + (b.arenaBuf.length + (o :: os).length - b.maxOrders)
        simp only [List.length_cons]
        omega
    · rw [if_neg hf]
      rw [if_pos (hval o (List.mem_cons_self o os))]
      obtain ⟨h1, h2, h3, h4⟩ := ih
        { b with seen := b.seen ++ [o.timestamp],
                 arenaBuf := b.arenaBuf ++ [o] }
        hA
        (by simp only [List.length_append, List.length_singleton]; omega)
        (by
          intro q hq hm
          rcases List.mem_append.mp hm with hm | hm
          · exact hfresh q (List.mem_cons_of_mem o hq) hm
          · exact hne q hq (List.mem_singleton.mp hm))
        hnd2 hval2
      refine ⟨h1, h2, ?_, ?_⟩
      · rw [h3]
        show min ((b.arenaBuf ++ [o]).length + os.length) b.maxOrders =
          min (b.arenaBuf.length + (o :: os).length) b.maxOrders
        simp only [List.length_append, List.length_singleton, List.length_cons,
          List.length_nil]
        omega
      · rw [h4]
        show b.arenaFailures + ((b.arenaBuf ++ [o]).length + os.length - b.maxOrders) =
          b.arenaFailures + (b.arenaBuf.length + (o :: os).length - b.maxOrders)
        simp only [List.length_append, List.length_singleton, List.length_cons,
          List.length_nil]
        omega

end OrderBook

/-! ### Claim C3 -/

/-- C3: for every sequence of inserts on a freshly constructed book (arena
or fallback mode), the stored orders have pairwise distinct timestamps, and
an insert whose timestamp equals the timestamp of any earlier insert leaves
the book (hence `size()`, the stored orders and `failed_arena_inserts()`)
unchanged.  Scenario S5 (100 orders, then 10 timestamp-reusing orders with
price 999) gives `size() = 100` and a snapshot free of price 999. -/
theorem orderbook_dedup :
    (∀ (cap : ℕ) (useA : Bool) (os : List Order),
      ((OrderBook.insertAll
          (if useA then OrderBook.mkArena cap else OrderBook.mkFallback cap)
          os).snapshot.map fun o => o.timestamp).Nodup) ∧
    (∀ (cap : ℕ) (useA : Bool) (os : List Order) (o : Order),
      (∃ p ∈ os, p.timestamp = o.timestamp) →
      (OrderBook.insertAll
          (if useA then OrderBook.mkArena cap else OrderBook.mkFallback cap)
          os).insert o =
        OrderBook.insertAll
          (if useA then OrderBook.mkArena cap else OrderBook.mkFallback cap) os) ∧
    (OrderBook.insertAll (OrderBook.mkFallback 1024) s5orders).size = 100 ∧
    ((OrderBook.insertAll (OrderBook.mkFallback 1024) s5orders).snapshot.all
      fun o => decide (o.price ≠ FQ.ofInt 999)) = true := by
  have hinv : ∀ (cap : ℕ) (useA : Bool),
      (if useA then OrderBook.mkArena cap else OrderBook.mkFallback cap).seenInv := by
    intro cap useA
    rcases useA with _ | _ <;>
      exact ⟨by intro o ho; simp [OrderBook.snapshot, OrderBook.mkArena,
          OrderBook.mkFallback] at ho,
        by simp [OrderBook.snapshot, OrderBook.mkArena, OrderBook.mkFallback]⟩
  refine ⟨?_, ?_, by decide, by decide⟩
  · intro cap useA os
    exact (OrderBook.seenInv_insertAll os (hinv cap useA)).2
  · intro cap useA os o ⟨p, hp, he⟩
    refine OrderBook.insert_of_dup ?_
    exact OrderBook.mem_seen_insertAll.mpr (.inr ⟨p, hp, he⟩)

/-- Witness for C3: a fallback book that saw timestamp 1725000000 silently
rejects a later insert with the same timestamp and price 999. -/
theorem orderbook_dedup_witness :
    (OrderBook.insertAll (OrderBook.mkFallback 4)
        [⟨FQ.ofInt 100, FQ.ofInt 1, 1725000000⟩]).insert
      ⟨FQ.ofInt 999, FQ.ofInt 1, 1725000000⟩ =
    OrderBook.insertAll (OrderBook.mkFallback 4)
      [⟨FQ.ofInt 100, FQ.ofInt 1, 1725000000⟩] :=
  orderbook_dedup.2.1 4 false
    [⟨FQ.ofInt 100, FQ.ofInt 1, 1725000000⟩]
    ⟨FQ.ofInt 999, FQ.ofInt 1, 1725000000⟩ (by decide)

/-! ### Claim C5 -/

/-- C5: an arena-backed book with capacity 10, fed 20 valid orders with
pairwise distinct timestamps, ends with `size() = 10`,
`failed_arena_inserts() = 10` and `is_arena_full() = true`.  The embedded
`insert` is a total function: every C++ throw inside `insert` (slab
exhaustion, placement-new failure) is caught in the source and converted to
the failure counter, so no exception propagates out of `insert`. -/
theorem arena_graceful_degradation (os : List Order)
    (hlen : os.length = 20)
    (hnd : (os.map fun o => o.timestamp).Nodup)
    (hval : ∀ o ∈ os, o.validB = true) :
    (OrderBook.insertAll (OrderBook.mkArena 10) os).size = 10 ∧
    (OrderBook.insertAll (OrderBook.mkArena 10) os).failed_arena_inserts = 10 ∧
    (OrderBook.insertAll (OrderBook.mkArena 10) os).is_arena_full = true := by
  obtain ⟨h1, h2, h3, h4⟩ := OrderBook.arena_fill os (OrderBook.mkArena 10)
    rfl (by simp [OrderBook.mkArena])
    (by intro o ho hm; simp [OrderBook.mkArena] at hm)
    hnd hval
  rw [hlen] at h3 h4
  have hlen10 : ((OrderBook.mkArena 10).insertAll os).arenaBuf.length = 10 := by
    rw [h3]; simp [OrderBook.mkArena]
  have hfail10 : ((OrderBook.mkArena 10).insertAll os).arenaFailures = 10 := by
    rw [h4]; simp [OrderBook.mkArena]
  have hmax10 : ((OrderBook.mkArena 10).insertAll os).maxOrders = 10 :=
    h2.trans (by simp [OrderBook.mkArena])
  refine ⟨?_, ?_, ?_⟩
  · unfold OrderBook.size
    rw [if_pos h1, hlen10]
  · unfold OrderBook.failed_arena_inserts
    rw [hfail10]
  · unfold OrderBook.is_arena_full
    rw [h1, hmax10, hlen10]
    rfl

/-- Witness for C5: the concrete scenario-S4 book. -/
theorem arena_graceful_degradation_witness :
    s4book.size = 10 ∧ s4book.failed_arena_inserts = 10 ∧
      s4book.is_arena_full = true :=
  arena_graceful_degradation s4orders (by decide) (by decide) (by decide)

/-! ### Claim C6 -/

/-- C6: when the checked volume summation hits a non-finite intermediate
sum, `flush_if_ready` raises `VolumeOverflow` and returns the generator
state unchanged — the window still holds every accumulated order and the
counters keep their values, so the flush can be retried.  In the source,
the throw happens inside the summation loop, before any mutation of the
window or the counters. -/
theorem flush_volume_overflow :
    ∀ (g : CandlestickGenerator) (t : ℤ) (first : Order) (rest : List Order),
      g.window = first :: rest →
      g.window_start + g.window_duration ≤ t →
      CandlestickGenerator.sumVolumes (FQ.ofInt 0) g.window =
        .error .volumeOverflow →
      g.flush_if_ready t = (.error .volumeOverflow, g) := by
  intro g t first rest hw ht hvol
  obtain ⟨win, ws, dur, acc, late, drop⟩ := g
  dsimp only at hw ht hvol ⊢
  subst hw
  unfold CandlestickGenerator.flush_if_ready
  dsimp only
  rw [if_pos ht, hvol]

/-- Witness for C6: a window holding an amount beyond the largest finite
double overflows at the first checked addition; the state is returned
unchanged. -/
theorem flush_volume_overflow_witness :
    overflowGen.flush_if_ready 1725000061 =
      (.error .volumeOverflow, overflowGen) :=
  flush_volume_overflow overflowGen 1725000061
    ⟨FQ.ofInt 100, ⟨dblMax + 1, 1⟩, 1725000000⟩ [] (by decide) (by decide)
    (by decide)

/-! ### Claim C8 -/

/-- C8 (code bug): the `FixedWindow` constructor as implemented in
src/utils/FixedWindow.hpp never fails: with capacity 0 it succeeds and
returns a zero-capacity window (whose `push` would then compute `% 0`),
while the repository's own test (src/tests/test_fixed_window.cpp expects
`std::invalid_argument` from `FixedWindow<int> fw(0)`) and the spec require
the constructor to fail on N = 0.  For N > 0 construction succeeds with
`capacity() = N` as the claim states. -/
theorem fixedwindow_create_total :
    (∃ w : FixedWindow ℤ, FixedWindow.create ℤ 0 = .ok w ∧ w.capacity = 0) ∧
    (∀ n : ℕ, ∃ w : FixedWindow ℤ, FixedWindow.create ℤ n = .ok w ∧
      w.capacity = n) :=
  ⟨⟨_, rfl, rfl⟩, fun _ => ⟨_, rfl, rfl⟩⟩

/-! ### Claim C10 -/

/-- C10: an `allocate` whose aligned end position exceeds the arena
capacity signals `OutOfMemory` (`std::bad_alloc`) without modifying the
allocator — `used()` and `available()` are unchanged — and a subsequent
request that fits still succeeds. -/
theorem arena_allocate_oom :
    ∀ (a : ArenaAllocator) (size align : ℕ),
      a.capacity <
        ArenaAllocator.alignUp (a.base + a.offset) align - a.base + size →
      a.allocate size align = (.error ("bad_alloc"), a) ∧
      (a.allocate size align).2.used = a.used ∧
      (a.allocate size align).2.available = a.available ∧
      (∀ s2 al2 : ℕ,
        ArenaAllocator.alignUp (a.base + a.offset) al2 - a.base + s2 ≤
          a.capacity →
        (a.allocate size align).2.allocate s2 al2 =
          (.ok (a.base +
              (ArenaAllocator.alignUp (a.base + a.offset) al2 - a.base + s2) -
              s2),
           { a with offset :=
              ArenaAllocator.alignUp (a.base + a.offset) al2 - a.base + s2 })) := by
  intro a size align h
  have hfail : a.allocate size align = (.error ("bad_alloc"), a) := by
    unfold ArenaAllocator.allocate
    rw [if_pos h]
  refine ⟨hfail, by rw [hfail], by rw [hfail], ?_⟩
  intro s2 al2 hfit
  rw [hfail]
  unfold ArenaAllocator.allocate
  rw [if_neg (not_lt.mpr hfit)]

/-- Witness for C10: a 16-byte arena rejects a 32-byte request unchanged
and still serves a following 8-byte request. -/
theorem arena_allocate_oom_witness :
    ArenaAllocator.allocate ⟨4096, 16, 0⟩ 32 8 =
      (.error ("bad_alloc"), (⟨4096, 16, 0⟩ : ArenaAllocator)) ∧
    ((ArenaAllocator.allocate ⟨4096, 16, 0⟩ 32 8).2.allocate 8 8).1 =
      .ok 4096 := by
  have h := arena_allocate_oom ⟨4096, 16, 0⟩ 32 8 (by decide)
  refine ⟨h.1, ?_⟩
  rw [h.2.2.2 8 8 (by decide)]
  decide

/-! ### Claim C9 -/

/-- C9 counterexample: at the positive setting kbps = 1 with burst
disabled, the rate is 125 bytes/s but `max_tokens` is the 1 KiB minimum
quantum, not `rate × 1 s = 125` as the claim states. -/
theorem throttle_max_tokens_counterexample :
    (PrecisionBandwidthThrottle.create 1 false 2).num_bytes_per_s = 125 ∧
    (PrecisionBandwidthThrottle.create 1 false 2).max_tokens = 1024 ∧
    ¬ ((PrecisionBandwidthThrottle.create 1 false 2).max_tokens =
        (PrecisionBandwidthThrottle.create 1 false 2).num_bytes_per_s * 1) := by
  decide

/-- C9 (amended): for every positive kbps and burst_seconds, the rate is
`min(kbps, 10^6) × 125` bytes/s (the constructor clamps at 1 Gbps; the
division `safe_kbps * 1000 / 8` is exact) and `max_tokens` equals
`rate × burst_seconds` when burst is enabled and `rate × 1 s` otherwise,
raised to the 1 KiB minimum quantum `kMinQuantumBytes`; the bucket starts
full exactly when burst is enabled. -/
theorem throttle_max_tokens :
    ∀ (kbps burst_seconds : ℤ) (burst : Bool),
      0 < kbps → 0 < burst_seconds →
      (PrecisionBandwidthThrottle.create kbps burst burst_seconds).num_bytes_per_s =
        min kbps kMaxGbpsKbps * 125 ∧
      (PrecisionBandwidthThrottle.create kbps burst burst_seconds).max_tokens =
        max (min kbps kMaxGbpsKbps * 125 * (if burst then burst_seconds else 1))
          kMinQuantumBytes ∧
      (PrecisionBandwidthThrottle.create kbps burst burst_seconds).tokens =
        (if burst then
          (PrecisionBandwidthThrottle.create kbps burst burst_seconds).max_tokens
         else 0) := by
  intro kbps bs burst hk hb
  have hmin : (0 : ℤ) < min kbps kMaxGbpsKbps := by
    unfold kMaxGbpsKbps
    omega
  have hdiv : min kbps kMaxGbpsKbps * 1000 / 8 = min kbps kMaxGbpsKbps * 125 := by
    omega
  have hpos : (0 : ℤ) < min kbps kMaxGbpsKbps * 125 := by positivity
  have h1bs : max (1 : ℤ) bs = bs := max_eq_right (by omega)
  simp only [PrecisionBandwidthThrottle.create]
  rw [hdiv]
  cases burst with
  | true =>
    simp only [if_true, h1bs, if_pos hpos]
    exact ⟨trivial, trivial, trivial⟩
  | false =>
    simp only [Bool.false_eq_true, if_false, if_pos hpos]
    norm_num

/-- Witness for C9: the quantum floor at kbps = 1 and the burst bucket at
kbps = 64 with 2 s of burst. -/
theorem throttle_max_tokens_witness :
    (PrecisionBandwidthThrottle.create 1 false 2).max_tokens = 1024 ∧
    (PrecisionBandwidthThrottle.create 64 true 2).max_tokens = 16000 := by
  have h1 := throttle_max_tokens 1 2 false (by decide) (by decide)
  have h2 := throttle_max_tokens 64 2 true (by decide) (by decide)
  exact ⟨h1.2.1.trans (by decide), h2.2.1.trans (by decide)⟩

/-! ### FeedManager lemmas -/

/-- `start_all` leaves a list of all-Completed sources untouched and spawns
no worker. -/
theorem startAllGo_completed (uniqueTags : Bool) (sources : List FeedSourceState)
    (started : List String) (h : ∀ s ∈ sources, s.status = .completed) :
    startAllGo uniqueTags sources started = (sources, 0) := by
  induction sources generalizing started with
  | nil => rfl
  | cons s rest ih =>
    have hs : s.status = .completed := h s (List.mem_cons_self s rest)
    have htail : ∀ q ∈ rest, q.status = .completed :=
      fun q hq => h q (List.mem_cons_of_mem s hq)
    have htsr : try_set_running s = (false, s) := by
      unfold try_set_running
      rw [if_neg (by rw [hs]; intro hcontr; cases hcontr)]
    unfold startAllGo
    by_cases hu : uniqueTags && started.contains s.tag
    · rw [if_pos hu, ih started htail]
    · rw [if_neg hu]
      by_cases hth : s.hasThread
      · rw [if_pos hth, ih (started ++ [s.tag]) htail]
      · rw [if_neg hth, htsr, ih (started ++ [s.tag]) htail]

/-- The first `start_all` on an all-Idle, thread-free source list spawns
one worker per source and moves every source to Running. -/
theorem startAllGo_idle (sources : List FeedSourceState) (started : List String)
    (h : ∀ s ∈ sources, s.status = .idle ∧ s.hasThread = false) :
    startAllGo false sources started =
      (sources.map fun s => ⟨.running, true, s.tag⟩, sources.length) := by
  induction sources generalizing started with
  | nil => rfl
  | cons s rest ih =>
    obtain ⟨hst, hth⟩ := h s (List.mem_cons_self s rest)
    have htail : ∀ q ∈ rest, q.status = .idle ∧ q.hasThread = false :=
      fun q hq => h q (List.mem_cons_of_mem s hq)
    have htsr : try_set_running s = (true, { s with status := .running }) := by
      unfold try_set_running
      rw [if_pos hst]
    unfold startAllGo
    rw [if_neg (by simp), if_neg (by rw [hth]; simp), htsr,
      ih (started ++ [s.tag]) htail]
    rfl

/-- A second `start_all` is a no-op on sources that already carry a worker
thread handle. -/
theorem startAllGo_threaded (sources : List FeedSourceState)
    (started : List String) (h : ∀ s ∈ sources, s.hasThread = true) :
    startAllGo false sources started = (sources, 0) := by
  induction sources generalizing started with
  | nil => rfl
  | cons s rest ih =>
    have hs : s.hasThread = true := h s (List.mem_cons_self s rest)
    have htail : ∀ q ∈ rest, q.hasThread = true :=
      fun q hq => h q (List.mem_cons_of_mem s hq)
    unfold startAllGo
    rw [if_neg (by simp)]
    rw [if_pos hs, ih (started ++ [s.tag]) htail]

/-- Worker completion never releases a thread handle. -/
theorem completeWorkers_hasThread (fin : ℕ → Bool) (i : ℕ)
    (l : List FeedSourceState) (h : ∀ s ∈ l, s.hasThread = true) :
    ∀ s ∈ completeWorkers fin i l, s.hasThread = true := by
  induction l generalizing i with
  | nil => intro s hs; cases hs
  | cons s rest ih =>
    intro q hq
    unfold completeWorkers at hq
    rcases List.mem_cons.mp hq with rfl | hq2
    · by_cases hc : fin i ∧ s.status = .running ∧ s.hasThread = true
      · rw [if_pos hc]
        exact h s (List.mem_cons_self s rest)
      · rw [if_neg hc]
        exact h s (List.mem_cons_self s rest)
    · exact ih (i + 1) (fun q hq => h q (List.mem_cons_of_mem s hq)) q hq2

/-! ### Claim C7 -/

/-- C7: `start_all` invokes `run()` only through the Idle→Running
compare-exchange of `try_set_running` (which fails on every non-Idle
status), so a Completed source is never restarted by `start_all`, and for
two consecutive `start_all` calls on sources that all start Idle — with an
arbitrary subset of the spawned workers finishing in between — the total
number of `run()` invocations equals the number of sources. -/
theorem start_all_cas :
    (∀ s : FeedSourceState, s.status ≠ .idle → try_set_running s = (false, s)) ∧
    (∀ (uniqueTags : Bool) (sources : List FeedSourceState),
      (∀ s ∈ sources, s.status = .completed) →
      startAll uniqueTags sources = (sources, 0)) ∧
    (∀ (tags : List String) (fin : ℕ → Bool),
      (startAll false (tags.map fun t => ⟨.idle, false, t⟩)).2 +
      (startAll false (completeWorkers fin 0
        (startAll false (tags.map fun t => ⟨.idle, false, t⟩)).1)).2 =
      tags.length) := by
  refine ⟨?_, ?_, ?_⟩
  · intro s h
    unfold try_set_running
    rw [if_neg h]
  · intro uniqueTags sources h
    exact startAllGo_completed uniqueTags sources [] h
  · intro tags fin
    have hIdle : ∀ s ∈ tags.map fun t => (⟨.idle, false, t⟩ : FeedSourceState),
        s.status = .idle ∧ s.hasThread = false := by
      intro s hs
      obtain ⟨t, _, rfl⟩ := List.mem_map.mp hs
      exact ⟨rfl, rfl⟩
    have h1 := startAllGo_idle (tags.map fun t => ⟨.idle, false, t⟩) [] hIdle
    have hth : ∀ s ∈ completeWorkers fin 0
        ((tags.map fun t => (⟨.idle, false, t⟩ : FeedSourceState)).map
          fun s => ⟨.running, true, s.tag⟩),
        s.hasThread = true := by
      refine completeWorkers_hasThread fin 0 _ ?_
      intro s hs
      obtain ⟨q, _, rfl⟩ := List.mem_map.mp hs
      rfl
    have h2 := startAllGo_threaded _ [] hth
    simp only [startAll, h1, h2, List.length_map, Nat.add_zero]

/-- Witness for C7: two Completed sources are not restarted by
`start_all`. -/
theorem start_all_cas_witness :
    startAll false
        [⟨.completed, true, ("SRC_CSV_a")⟩, ⟨.completed, false, ("SRC_CSV_b")⟩] =
      ([⟨.completed, true, ("SRC_CSV_a")⟩, ⟨.completed, false, ("SRC_CSV_b")⟩], 0) :=
  start_all_cas.2.1 false
    [⟨.completed, true, ("SRC_CSV_a")⟩, ⟨.completed, false, ("SRC_CSV_b")⟩]
    (by decide)

/-! ### Claim C4 -/

/-- C4 counterexample: two lines on which claim C4 as stated and the code
disagree.  The first line parses to the finite positive price 2000000 with
a strictly increasing timestamp, so by the claim's six conditions it is
accepted; the code rejects it (the `Order` constructor throws on
`price > MAX_PRICE`) and still advances `last_ts`, which then makes the
code reject the second line as non-monotonic while the claim (baseline =
previous ACCEPTED timestamp, still 0) accepts nothing less: the claim
predicts one accepted order and one anomaly, the code produces zero
accepted orders and two anomalies. -/
theorem csv_line_policy_counterexample :
    (CSVFeedSource.run c4lines).orders_received = 0 ∧
    (CSVFeedSource.run c4lines).anomalies = 2 ∧
    (CSVFeedSource.run c4lines).queue = [] ∧
    (CSVFeedSource.claimRun c4lines).orders_received = 1 ∧
    (CSVFeedSource.claimRun c4lines).anomalies = 1 := by
  decide

/-- C4 (amended): a line is rejected — incrementing `anomalies` and
enqueueing nothing — exactly when `parse_line` fails (non-printable byte,
field count ≠ 3, a field not parsing fully as a number, a non-finite or
non-positive value), when the timestamp is not strictly greater than the
baseline `last_ts`, or when the parsed values fail the `Order`
constructor bounds; every other line enqueues exactly one order and
increments `orders_received`.  The baseline `last_ts` advances on every
line that passes parsing and monotonicity, including lines the `Order`
constructor then rejects.  An accepted `parse_line` moreover guarantees
the printable check, the three-field split, positivity of price and
amount (as double comparisons) and a positive timestamp.  Scenario S3
yields `orders_received = 3` and `anomalies = 2`. -/
theorem csv_line_policy :
    (∀ (line : String) (p a : FQ) (ts : ℤ),
      CSVFeedSource.parse_line line = some (p, a, ts) →
      CSVFeedSource.asciiPrintable line = true ∧
      (CSVFeedSource.getlineSplit line.toList).length = 3 ∧
      FQ.ble p (FQ.ofInt 0) = false ∧ FQ.ble a (FQ.ofInt 0) = false ∧
      0 < ts) ∧
    (∀ (st : CSVFeedSource.CSVState) (line : String),
      CSVFeedSource.parse_line line = none →
      CSVFeedSource.runStep st line =
        { st with anomalies := st.anomalies + 1 }) ∧
    (∀ (st : CSVFeedSource.CSVState) (line : String) (p a : FQ) (ts : ℤ),
      CSVFeedSource.parse_line line = some (p, a, ts) → ts ≤ st.last_ts →
      CSVFeedSource.runStep st line =
        { st with anomalies := st.anomalies + 1 }) ∧
    (∀ (st : CSVFeedSource.CSVState) (line : String) (p a : FQ) (ts : ℤ)
      (o : Order),
      CSVFeedSource.parse_line line = some (p, a, ts) → st.last_ts < ts →
      Order.create p a ts = .ok o →
      CSVFeedSource.runStep st line =
        { st with last_ts := ts, orders_received := st.orders_received + 1,
                  queue := st.queue ++ [o] }) ∧
    (∀ (st : CSVFeedSource.CSVState) (line : String) (p a : FQ) (ts : ℤ)
      (e : String),
      CSVFeedSource.parse_line line = some (p, a, ts) → st.last_ts < ts →
      Order.create p a ts = .error e →
      CSVFeedSource.runStep st line =
        { st with last_ts := ts, anomalies := st.anomalies + 1 }) ∧
    (CSVFeedSource.run s3lines).orders_received = 3 ∧
    (CSVFeedSource.run s3lines).anomalies = 2 := by
  refine ⟨?_, ?_, ?_, ?_, ?_, by decide, by decide⟩
  · intro line p a ts h
    unfold CSVFeedSource.parse_line at h
    by_cases hA : CSVFeedSource.asciiPrintable line
    · simp only [hA, Bool.not_true, Bool.false_eq_true, if_false] at h
      refine ⟨hA, ?_⟩
      split at h
      next f0 f1 f2 heq =>
        refine ⟨by rw [heq]; rfl, ?_⟩
        split at h
        next p0 hp0 =>
          split at h
          next hple =>
            cases h
          next hple =>
            split at h
            next a0 ha0 =>
              split at h
              next hale =>
                cases h
              next hale =>
                split at h
                next ts0 hts0 =>
                  split at h
                  next htsle =>
                    cases h
                  next htsle =>
                    cases h
                    refine ⟨by simpa using hple, by simpa using hale, by omega⟩
                next => cases h
            next hother => cases h
        next hother => cases h
      next => cases h
    · simp only [hA] at h
      cases h
  · intro st line h
    unfold CSVFeedSource.runStep
    rw [h]
  · intro st line p a ts h hle
    unfold CSVFeedSource.runStep
    rw [h]
    dsimp only
    rw [if_pos hle]
  · intro st line p a ts o h hgt hok
    unfold CSVFeedSource.runStep
    rw [h]
    dsimp only
    rw [if_neg (not_le.mpr hgt), hok]
  · intro st line p a ts e h hgt herr
    unfold CSVFeedSource.runStep
    rw [h]
    dsimp only
    rw [if_neg (not_le.mpr hgt), herr]

/-- Witness for C4: the first scenario-S3 line accepted from the initial
state. -/
theorem csv_line_policy_witness :
    CSVFeedSource.runStep ⟨0, 0, 0, []⟩ ("100.0,1.0,1725621000") =
      ⟨1725621000, 1, 0, [⟨⟨1000, 10⟩, ⟨10, 10⟩, 1725621000⟩]⟩ := by
  have h := csv_line_policy.2.2.2.1 ⟨0, 0, 0, []⟩ ("100.0,1.0,1725621000")
    ⟨1000, 10⟩ ⟨10, 10⟩ 1725621000 ⟨⟨1000, 10⟩, ⟨10, 10⟩, 1725621000⟩
    (by decide) (by decide) (by decide)
  exact h.trans (by decide)

end ChronoTrade
